import Mathlib

/-!
Shallow embedding of the request-execution core of the machinebox/graphql
client: the retry-aware transport (sendRequest), the application-level retry
loop (executeRequest), the response resolver (getAggrErr, shouldRetry), the
no-retry JSON runner of the forked variant (runWithJSON tail), the
subscription handshake and dispatch loop, and the multipart operation-name
parser.  Each definition is translated from the Go sources under src/; the
source file and line numbers are recorded in the doc comments.

Modelling conventions: Go float64 intervals become rationals; a Go map read
becomes an association-list lookup defaulting to the zero value; the server
is a stream of per-attempt outcomes indexed by a global attempt counter;
context cancellation is not modelled (it can only truncate the loops, never
add attempts); an HTTP exchange is assumed to read the request body fully,
so the tee buffer captures exactly the bytes that were sent.
-/

/-- Model of the Go struct RetryConfig (src/unnamed/part_002 lines 86-100).
Field order mirrors the Go struct.  The BeforeRetry observer hook is omitted
because it returns nothing and cannot influence control flow. -/
structure RetryConfig where
  maxTries : Nat
  interval : ℚ
  policy : String
  maxInterval : ℚ
  retryStatus : List (Nat × Bool)
deriving DecidableEq

/-- Go constant ExponentialBackoff (part_002 line 107): PolicyType is a string. -/
def ExponentialBackoff : String := "exponential_backoff"

/-- Go constant Linear (part_002 line 109). -/
def Linear : String := "linear"

/-- Go package variable defaultLinearRetryConfig (part_002 lines 113-117);
unset fields take the Go zero value. -/
def defaultLinearRetryConfig : RetryConfig := ⟨5, 2, Linear, 0, []⟩

/-- Go package variable defaultExponentialRetryConfig (part_002 lines 119-124). -/
def defaultExponentialRetryConfig : RetryConfig := ⟨5, 1, ExponentialBackoff, 16, []⟩

/-- Go package variable defaultNoRetryConfig (part_002 lines 126-128). -/
def defaultNoRetryConfig : RetryConfig := ⟨1, 0, "", 0, []⟩

/-- Read of the Go map RetryStatus: a missing key yields the zero value false. -/
def lookupStatus (m : List (Nat × Bool)) (s : Nat) : Bool :=
  (List.lookup s m).getD false

/-- Model of the Go method (config) shouldRetry(status) (part_002 lines 217-223):
with a non-empty RetryStatus map the map decides, otherwise any 5xx status or
429 is retryable.  (The older fork in src/graphql.go lines 181-186 instead
defaults to the set 502/503/504/507; the consolidated engine of part_002 is
the one modelled here, matching the spec.) -/
def RetryConfig.shouldRetry (config : RetryConfig) (status : Nat) : Bool :=
  if config.retryStatus.length > 0 then lookupStatus config.retryStatus status
  else decide ((500 ≤ status ∧ status ≤ 599) ∨ status = 429)

/-- Model of the Go method (config) increaseInterval (part_002 lines 202-206):
only the exponential policy, and only while strictly below MaxInterval,
doubles the interval, capping at MaxInterval. -/
def RetryConfig.increaseInterval (config : RetryConfig) : RetryConfig :=
  if config.policy = ExponentialBackoff ∧ config.interval < config.maxInterval then
    ⟨config.maxTries, min (config.interval * 2) config.maxInterval,
      config.policy, config.maxInterval, config.retryStatus⟩
  else config

/-- Model of the Go method (config) isValid (part_002 lines 226-229).  Note
that the code never calls it (the Run method carries a TODO comment at
part_002 line 272), so invalid configurations do reach the retry loops. -/
def RetryConfig.isValid (config : RetryConfig) : Prop :=
  config.policy = "" ∨ (0 < config.maxTries ∧ config.interval ≤ config.maxInterval)

/-- Model of the Go function isErrRetryable (part_002 lines 209-212): an
error is retryable exactly when it is a net.Error whose Timeout() is true.
The two booleans model the two interface tests. -/
def isErrRetryable (isNetErr timeout : Bool) : Bool := isNetErr && timeout

/-- Go graphErrType constant errCapacityExceeded (src/error.go line 13). -/
def errCapacityExceeded : String := "capacity_exceeded"

/-- Go graphErrType constant errServiceUnavailable (src/error.go line 16). -/
def errServiceUnavailable : String := "service_unavailable"

/-- Go graphErrType constant errServiceFailure (src/error.go line 17). -/
def errServiceFailure : String := "service_failure"

/-- Go graphErrType constant errInternal (src/error.go line 18). -/
def errInternal : String := "internal_error"

/-- Model of the Go struct graphErr (src/error.go lines 21-28): message text,
classification tag (graphErrType, a string), and the structured Data field
modelled by its fmt %+v rendering.  TimeThrown, Path and Locations play no
role in any claim and are omitted. -/
structure GraphErr where
  message : String
  name : String
  data : String
deriving DecidableEq

/-- Fragment written for one error by getAggrErr (src/error.go line 48):
fmt.Sprintf of "error %d: message (%s), data (%+v). ". -/
def errFragment (idx : Nat) (e : GraphErr) : String :=
  "error " ++ toString idx ++ ": message (" ++ e.message ++ "), data (" ++ e.data ++ "). "

/-- Body of the loop of getAggrErr (src/error.go lines 47-49), indexing the
errors from idx upward. -/
def aggrBody : List GraphErr → Nat → String
  | [], _ => ""
  | e :: es, idx => errFragment idx e ++ aggrBody es (idx + 1)

/-- Model of the Go function getAggrErr (src/error.go lines 44-52): the text
of the single aggregated error value. -/
def getAggrErr (errList : List GraphErr) : String :=
  "graphql: " ++ aggrBody errList 0

/-- Model of the Go function shouldRetry(errList) (src/error.go lines 54-62):
scan the application errors for one of the four retryable classification
tags.  The function takes no HTTP status: the classification is computed
from the error list alone. -/
def shouldRetry : List GraphErr → Bool
  | [] => false
  | e :: rest =>
    if e.name = errCapacityExceeded ∨ e.name = errServiceUnavailable ∨
        e.name = errServiceFailure ∨ e.name = errInternal then true
    else shouldRetry rest

/-- Decoded shape of one HTTP response body: either JSON that fails to decode
into the graphResponse envelope, or an envelope carrying a list of
application errors (the data payload is uninterpreted by the engine). -/
inductive Envelope where
  | malformed
  | ok (errors : List GraphErr)
deriving DecidableEq

/-- Outcome of one httpClient.Do call: a response with a status code and a
body, or an error with its net.Error / Timeout classification. -/
inductive DoResult where
  | resp (status : Nat) (body : Envelope)
  | fail (isNetErr timeout : Bool)
deriving DecidableEq

/-- Terminal outcome of sendRequest (part_002 lines 132-199). -/
inductive SendOutcome where
  | success (status : Nat) (body : Envelope)
  | failNonRetryable (isNetErr timeout : Bool)
  | exhausted (lastStatus : Nat)
deriving DecidableEq

/-- Bookkeeping for one sendRequest invocation: its terminal outcome, the
number of physical httpClient.Do calls, the request body bytes sent on each
attempt (in order), the interval waits performed between attempts, the value
of retryConfig.Interval when the call returns (executeRequest reads it at
part_002 line 359), and the index of the next unconsumed server outcome. -/
structure SendResult where
  outcome : SendOutcome
  attempts : Nat
  bodies : List String
  waits : List ℚ
  finalInterval : ℚ
  nextIdx : Nat
deriving DecidableEq

/-- Model of the retry loop of sendRequest (part_002 lines 146-196), fuel =
remaining tries.  Per iteration: the attempt sends the replay source (the tee
buffer of the previous attempt holds exactly those bytes, so the source is
unchanged across attempts), the outcome is classified (a non-timeout error is
terminal, a response with a non-retryable status is returned as success),
otherwise the loop waits for the current interval, applies increaseInterval,
and retries.  statusCode is updated only on err == nil, matching line 166. -/
def sendLoop (out : Nat → DoResult) (body : String) :
    Nat → RetryConfig → Nat → Nat → SendResult
  | 0, cfg, idx, lastStatus =>
    ⟨SendOutcome.exhausted lastStatus, 0, [], [], cfg.interval, idx⟩
  | fuel + 1, cfg, idx, lastStatus =>
    match out idx with
    | DoResult.fail isNetErr timeout =>
      if isErrRetryable isNetErr timeout then
        let r := sendLoop out body fuel cfg.increaseInterval (idx + 1) lastStatus
        ⟨r.outcome, r.attempts + 1, body :: r.bodies, cfg.interval :: r.waits,
          r.finalInterval, r.nextIdx⟩
      else
        ⟨SendOutcome.failNonRetryable isNetErr timeout, 1, [body], [],
          cfg.interval, idx + 1⟩
    | DoResult.resp status env =>
      if RetryConfig.shouldRetry cfg status then
        let r := sendLoop out body fuel cfg.increaseInterval (idx + 1) status
        ⟨r.outcome, r.attempts + 1, body :: r.bodies, cfg.interval :: r.waits,
          r.finalInterval, r.nextIdx⟩
      else
        ⟨SendOutcome.success status env, 1, [body], [], cfg.interval, idx + 1⟩

/-- Model of the Go method (c) sendRequest (part_002 lines 132-199).  With an
empty policy (lines 134-140) a single httpClient.Do is issued and returned
without any status classification; otherwise the retry loop runs for at most
MaxTries attempts. -/
def sendRequest (cfg : RetryConfig) (body : String) (out : Nat → DoResult)
    (idx : Nat) : SendResult :=
  if cfg.policy = "" then
    match out idx with
    | DoResult.fail isNetErr timeout =>
      ⟨SendOutcome.failNonRetryable isNetErr timeout, 1, [body], [], cfg.interval, idx + 1⟩
    | DoResult.resp status env =>
      ⟨SendOutcome.success status env, 1, [body], [], cfg.interval, idx + 1⟩
  else sendLoop out body cfg.maxTries cfg idx 0

/-- Result of executeRequest (part_002 lines 336-386). -/
inductive ExecResult where
  | success
  | transportErr (o : SendOutcome)
  | decodeErr
  | aggr (text : String)
  | retriesExhausted (tryCount : Nat) (text : String)
deriving DecidableEq

/-- Bookkeeping for one executeRequest invocation: its result, the total
number of physical httpClient.Do calls over all nested attempts, the body
bytes of every physical attempt in order, and the next unconsumed outcome. -/
structure ExecRun where
  result : ExecResult
  totalAttempts : Nat
  bodies : List String
  nextIdx : Nat
deriving DecidableEq

/-- Model of the application-level retry loop of executeRequest (part_002
lines 340-383).  Each iteration passes a fresh copy of c.retryConfig to
sendRequest (line 344) while gqlRetryConfig persists across iterations; on a
decoded envelope with errors, the retry guard (line 359) requires the copy
mutated by sendRequest to still satisfy Interval <= c.retryConfig.Interval
and shouldRetry on the error list; otherwise getAggrErr is returned at once.
tc counts completed iterations, reported by the exhaustion message. -/
def execLoop (ccfg : RetryConfig) (out : Nat → DoResult) (body : String) :
    Nat → RetryConfig → Nat → List GraphErr → Nat → ExecRun
  | 0, _, idx, lastErrs, tc =>
    ⟨ExecResult.retriesExhausted tc (getAggrErr lastErrs), 0, [], idx⟩
  | fuel + 1, gqlCfg, idx, _, tc =>
    let s := sendRequest ccfg body out idx
    match s.outcome with
    | SendOutcome.success _ env =>
      match env with
      | Envelope.malformed => ⟨ExecResult.decodeErr, s.attempts, s.bodies, s.nextIdx⟩
      | Envelope.ok errs =>
        if errs.length > 0 then
          if s.finalInterval ≤ ccfg.interval ∧ shouldRetry errs = true then
            let r := execLoop ccfg out body fuel gqlCfg.increaseInterval
              s.nextIdx errs (tc + 1)
            ⟨r.result, s.attempts + r.totalAttempts, s.bodies ++ r.bodies, r.nextIdx⟩
          else
            ⟨ExecResult.aggr (getAggrErr errs), s.attempts, s.bodies, s.nextIdx⟩
        else ⟨ExecResult.success, s.attempts, s.bodies, s.nextIdx⟩
    | o => ⟨ExecResult.transportErr o, s.attempts, s.bodies, s.nextIdx⟩

/-- Model of the Go method (c) executeRequest (part_002 lines 336-386): the
loop starts with fuel MaxTries, gqlRetryConfig = c.retryConfig, and an empty
previous error list. -/
def executeRequest (ccfg : RetryConfig) (body : String) (out : Nat → DoResult)
    (idx : Nat) : ExecRun :=
  execLoop ccfg out body ccfg.maxTries ccfg idx [] 0

/-- Result reported by the decode tail of runWithJSON in the forked variant
src/unnamed/part_001 (lines 198-213). -/
inductive RunOutcome where
  | ok
  | statusErr (code : Nat)
  | decodeErr
  | firstErr (e : GraphErr)
deriving DecidableEq

/-- Model of the decode tail of runWithJSON (part_001 lines 203-212) and the
identical tail of runWithPostFields (part_001 lines 274-283): when the body
fails to decode, a status different from http.StatusOK (exactly 200) is
reported as a status-code failure, otherwise the decode failure is reported;
on a decoded envelope the first error, if any, is returned. -/
def runWithJSONResolve (status : Nat) (env : Envelope) : RunOutcome :=
  match env with
  | Envelope.malformed =>
    if status ≠ 200 then RunOutcome.statusErr status else RunOutcome.decodeErr
  | Envelope.ok errs =>
    match errs with
    | [] => RunOutcome.ok
    | e :: _ => RunOutcome.firstErr e

/-- Go subscriptionMessageType constant gqp_init (part_001 line 403). -/
def gqp_init : String := "connection_init"

/-- Go constant gql_start (part_001 line 404). -/
def gql_start : String := "start"

/-- Go constant gql_stop (part_001 line 405). -/
def gql_stop : String := "stop"

/-- Go constant gql_connection_ack (part_001 line 406). -/
def gql_connection_ack : String := "connection_ack"

/-- Go constant gql_connection_terminate (part_001 line 407). -/
def gql_connection_terminate : String := "connection_terminate"

/-- Go constant gql_connection_error (part_001 line 408). -/
def gql_connection_error : String := "connection_error"

/-- Go constant gql_data (part_001 line 409). -/
def gql_data : String := "data"

/-- Go constant gql_error (part_001 line 410). -/
def gql_error : String := "error"

/-- Go constant gql_complete (part_001 line 411).  Note the source spells the
wire value "GQL_COMPLETE", unlike the other lowercase frame kinds. -/
def gql_complete : String := "GQL_COMPLETE"

/-- Go constant gql_connection_keep_alive (part_001 line 412). -/
def gql_connection_keep_alive : String := "ka"

/-- Model of the Go struct subscriptionMessage (part_001 lines 415-419):
Payload is a raw JSON pointer (modelled as an optional raw JSON string), Id an
optional string, Type the frame-kind string.  Field order mirrors the Go
struct. -/
structure SubMessage where
  payload : Option String
  id : Option String
  msgType : String
deriving DecidableEq

/-- Outcome of the handshake performed by SubscriptionClient (part_001 lines
439-457) on the first frame read from the new connection.  ready models the
non-nil client being returned; errPayload carries the text of the error value
built from json.Marshal of the frame payload (marshalling a raw JSON message
returns its own compacted bytes, so the text is the payload itself);
errNoAck models the generic error; panicNilPayload models the nil-pointer
dereference of msg.Payload at line 448 when a connection_error frame carries
no payload. -/
inductive HandshakeResult where
  | ready
  | errPayload (text : String)
  | errNoAck
  | panicNilPayload
deriving DecidableEq

/-- Model of the handshake branch of (c) SubscriptionClient (part_001 lines
445-457): a connection_ack frame yields a ready client; any other frame
closes the connection and fails, a connection_error frame with the marshalled
payload as the error text, every other kind with the generic
server-did-not-acknowledge error. -/
def handshake (msg : SubMessage) : HandshakeResult :=
  if msg.msgType ≠ gql_connection_ack then
    if msg.msgType = gql_connection_error then
      match msg.payload with
      | some p => HandshakeResult.errPayload p
      | none => HandshakeResult.panicNilPayload
    else HandshakeResult.errNoAck
  else HandshakeResult.ready

/-- Effect of the dispatch loop subWork (part_001 lines 509-525) on one
inbound frame: deliver to the sink registered under the id, close and remove
the sink, discard the frame, or panic.  panicNilAssertion models the
unchecked type assertion ch.(Subscription) on the nil interface returned by
c.subs.Load when the id is not registered (lines 512-513, 516-517, 520-521);
panicNilId models the dereference of a nil msg.Id pointer. -/
inductive FrameAction where
  | deliverData (id : String) (payload : Option String)
  | deliverErr (id : String) (payload : Option String)
  | closeAndRemove (id : String)
  | ignored
  | panicNilAssertion
  | panicNilId
deriving DecidableEq

/-- Model of one iteration of the switch in subWork (part_001 lines 509-525)
over the registry of subscription ids (the key set of c.subs): error and data
frames are sent to the sink loaded under their id, complete frames close the
sink and delete the id, keep-alive and unknown kinds fall through the switch
and are discarded.  Load returns a nil interface for an unregistered id, and
the non-ok type assertion on it panics. -/
def subWorkStep (subs : List String) (msg : SubMessage) : FrameAction × List String :=
  if msg.msgType = gql_error then
    match msg.id with
    | none => (FrameAction.panicNilId, subs)
    | some i =>
      if subs.contains i then (FrameAction.deliverErr i msg.payload, subs)
      else (FrameAction.panicNilAssertion, subs)
  else if msg.msgType = gql_data then
    match msg.id with
    | none => (FrameAction.panicNilId, subs)
    | some i =>
      if subs.contains i then (FrameAction.deliverData i msg.payload, subs)
      else (FrameAction.panicNilAssertion, subs)
  else if msg.msgType = gql_complete then
    match msg.id with
    | none => (FrameAction.panicNilId, subs)
    | some i =>
      if subs.contains i then (FrameAction.closeAndRemove i, subs.erase i)
      else (FrameAction.panicNilAssertion, subs)
  else (FrameAction.ignored, subs)

/-- Character class of the Go regexp escape \s: exactly tab, newline, form
feed, carriage return and space. -/
def goWhitespace (c : Char) : Bool :=
  c = '\t' || c = '\n' || c = '\x0C' || c = '\r' || c = ' '

/-- Matcher for a literal pattern at the head of the input: some rest exactly
when the pattern is a prefix, in which case rest is the remainder. -/
def stripPrefixStr : List Char → List Char → Option (List Char)
  | [], cs => some cs
  | _ :: _, [] => none
  | p :: ps, c :: cs => if c = p then stripPrefixStr ps cs else none

/-- Lazy matcher for the tail fragment of the pattern, the group (.*?)
followed by a literal opening parenthesis: scan for the nearest parenthesis
without crossing a newline (the dot of a Go regexp does not match newline)
and return the characters consumed by the group. -/
def lazyFindParen : List Char → Option (List Char)
  | [] => none
  | c :: cs =>
    if c = '(' then some []
    else if c = '\n' then none
    else Option.map (fun g => c :: g) (lazyFindParen cs)

/-- Length of the maximal leading run of \s characters. -/
def wsRun : List Char → Nat
  | [] => 0
  | c :: cs => if goWhitespace c then wsRun cs + 1 else 0

/-- Backtracking search for the greedy \s* followed by the lazy tail: try
consuming w whitespace characters first (the greedy maximum is passed in),
backing off one character at a time. -/
def tryWs : Nat → List Char → Option (List Char)
  | 0, cs => lazyFindParen cs
  | w + 1, cs =>
    match lazyFindParen (cs.drop (w + 1)) with
    | some g => some g
    | none => tryWs w cs

/-- Matcher for the part of the pattern after the keyword alternation, with
leftmost-first (Perl-style) semantics as the Go regexp package implements
for submatches: \s* is greedy, (.*?) is lazy. -/
def matchTail (cs : List Char) : Option (List Char) :=
  tryWs (wsRun cs) cs

/-- Matcher for the whole pattern (mutation|query)\s*(.*?)\( anchored at the
current position, returning the two submatch groups: the alternation tries
mutation first, then query (the two literals can never both be prefixes of
the same input, their first characters differ). -/
def matchAt (cs : List Char) : Option (List Char × List Char) :=
  match stripPrefixStr "mutation".data cs with
  | some rest =>
    match matchTail rest with
    | some g => some ("mutation".data, g)
    | none =>
      match stripPrefixStr "query".data cs with
      | some rest2 =>
        match matchTail rest2 with
        | some g2 => some ("query".data, g2)
        | none => none
      | none => none
  | none =>
    match stripPrefixStr "query".data cs with
    | some rest2 =>
      match matchTail rest2 with
      | some g2 => some ("query".data, g2)
      | none => none
    | none => none

/-- Leftmost search: try the pattern at each successive start position. -/
def findFrom : List Char → Option (List Char × List Char)
  | [] => none
  | c :: cs =>
    match matchAt (c :: cs) with
    | some r => some r
    | none => findFrom cs

/-- Model of pattern.FindStringSubmatch for the compiled pattern of
OperationName (src/request.go line 34): none models the nil slice returned
when the input contains no match; some (g1, g2) carries the two submatch
groups of the leftmost-first match. -/
def FindStringSubmatch (s : String) : Option (List Char × List Char) :=
  findFrom s.data

/-- Model of the Go struct Request (src/request.go lines 12-20) restricted to
the fields the parser claims need: the query string. -/
structure Request where
  q : String
deriving DecidableEq

/-- Model of the Go method (req) Query (src/request.go lines 60-62). -/
def Request.Query (req : Request) : String := req.q

/-- Model of the Go method (req) OperationName (src/request.go lines 33-38):
the submatch at index 2 of FindStringSubmatch.  When the query contains no
match, FindStringSubmatch returns nil and the index expression panics with an
out-of-range fault; the fault is modelled as none, a defined value as some. -/
def Request.OperationName (req : Request) : Option String :=
  match FindStringSubmatch req.Query with
  | some (_, g2) => some (String.mk g2)
  | none => none

/-- Model of the Operations struct serialized by OperationsJSON
(src/request.go lines 77-81), with the uninterpreted variables omitted. -/
structure Operations where
  operationName : String
  opQuery : String
deriving DecidableEq

/-- Model of the Go method (req) OperationsJSON (src/request.go lines 76-90):
it calls OperationName, so it faults (none) exactly when OperationName does;
json.Marshal of the resulting struct always succeeds. -/
def Request.OperationsJSON (req : Request) : Option Operations :=
  Option.map (fun op => ⟨op, req.Query⟩) req.OperationName

/-- Classification written from the words of the spec (section 4.2, step 3):
an attempt outcome is retryable exactly when it is a network-level timeout,
or a response whose status lies in the retryable set, the explicit
RetryStatus set when one is configured, otherwise any status in 500-599 or
status 429.  This definition follows the spec text and is compared against
the control flow of sendLoop, which was translated from the source. -/
def specRetryable (cfg : RetryConfig) : DoResult → Bool
  | DoResult.fail isNetErr timeout => isNetErr && timeout
  | DoResult.resp status _ =>
    if cfg.retryStatus.length > 0 then lookupStatus cfg.retryStatus status
    else decide ((500 ≤ status ∧ status ≤ 599) ∨ status = 429)

/-- Terminal result of a single non-retried attempt: a non-timeout error is
returned as a terminal failure, a response as a terminal success. -/
def terminalResult (cfg : RetryConfig) (body : String) (idx : Nat) :
    DoResult → SendResult
  | DoResult.fail isNetErr timeout =>
    ⟨SendOutcome.failNonRetryable isNetErr timeout, 1, [body], [], cfg.interval, idx + 1⟩
  | DoResult.resp status env =>
    ⟨SendOutcome.success status env, 1, [body], [], cfg.interval, idx + 1⟩

/-- Composition of one retried attempt with the rest of the loop: one more
physical attempt, one more replay of the body, one wait of the current
interval. -/
def retryStep (r : SendResult) (body : String) (interval : ℚ) : SendResult :=
  ⟨r.outcome, r.attempts + 1, body :: r.bodies, interval :: r.waits,
    r.finalInterval, r.nextIdx⟩

/-- Value of the statusCode variable after one attempt: updated only when the
attempt produced a response. -/
def nextLastStatus (lastStatus : Nat) : DoResult → Nat
  | DoResult.fail _ _ => lastStatus
  | DoResult.resp status _ => status

/-- Iterated application of increaseInterval, the configuration state after n
waits of the retry loop. -/
def iterCfg (cfg : RetryConfig) : Nat → RetryConfig
  | 0 => cfg
  | n + 1 => (iterCfg cfg n).increaseInterval

/-- Wait interval used after attempt n (zero-based): the interval field after
n applications of increaseInterval. -/
def intervalAfter (cfg : RetryConfig) (n : Nat) : ℚ :=
  (iterCfg cfg n).interval

/-- Containment of a list of fragments in a text, in order: the text splits
as filler, the first fragment, and a remainder containing the rest in
order. -/
def containsInOrder : List String → String → Prop
  | [], _ => True
  | m :: ms, t => ∃ p r, t = p ++ (m ++ r) ∧ containsInOrder ms r

/-- Message and structured data of every error, in envelope order. -/
def errStrings : List GraphErr → List String
  | [] => []
  | e :: es => e.message :: e.data :: errStrings es

/-- Substring containment for strings. -/
def StrContains (t sub : String) : Prop :=
  ∃ a b, t = a ++ (sub ++ b)

/-- Declarative reading of the pattern (mutation|query)\s*(.*?)\( of
OperationName: the input contains, somewhere, one of the two keywords,
followed by a run of \s characters, followed by a newline-free run, followed
by an opening parenthesis. -/
def MatchesPattern (cs : List Char) : Prop :=
  ∃ pre kw ws mid rest,
    cs = pre ++ (kw ++ (ws ++ (mid ++ ('(' :: rest)))) ∧
    (kw = "mutation".data ∨ kw = "query".data) ∧
    (∀ c ∈ ws, goWhitespace c = true) ∧
    (∀ c ∈ mid, c ≠ '\n')

/-- Linear retry configuration with MaxTries 2, used by the concrete C1 run. -/
def cfgLin : RetryConfig := ⟨2, 1, Linear, 16, []⟩

/-- Application error tagged capacity_exceeded. -/
def capErr : GraphErr := ⟨"over capacity", "capacity_exceeded", "d0"⟩

/-- Server that alternates a retryable 503 with a 200 whose envelope carries
a retry-eligible application error: every transport-loop invocation costs two
physical attempts and every application-level iteration retries. -/
def outAlt : Nat → DoResult := fun n =>
  if n % 2 = 0 then DoResult.resp 503 (Envelope.ok [])
  else DoResult.resp 200 (Envelope.ok [capErr])

/-- Exponential configuration whose initial interval 5 exceeds MaxInterval 2;
RetryConfig.isValid rejects it, but the code never validates. -/
def cfgBad : RetryConfig := ⟨2, 5, ExponentialBackoff, 2, []⟩

/-- Server that always answers 503. -/
def out503 : Nat → DoResult := fun _ => DoResult.resp 503 (Envelope.ok [])

/-- Linear configuration used by the C2 witness. -/
def cfgW : RetryConfig := ⟨3, 1, Linear, 16, []⟩

/-- Two terminal (not retry-eligible) application errors used by the C5
witness. -/
def errsW : List GraphErr :=
  [⟨"boom", "not_found", "d1"⟩, ⟨"kaput", "invalid_input", "d2"⟩]

/-- Payload of the connection_error frame of spec Scenario C. -/
def badTokenPayload : String := "\x7b\"reason\":\"bad token\"\x7d"

/-- Handshake frame of spec Scenario C: a connection_error frame carrying the
bad-token payload. -/
def connErrMsg : SubMessage := ⟨some badTokenPayload, none, gql_connection_error⟩

theorem containsInOrder_prepend (ms : List String) (s t : String)
    (h : containsInOrder ms t) : containsInOrder ms (s ++ t) := by
  cases ms with
  | nil => trivial
  | cons m ms =>
    obtain ⟨p, r, ht, hrest⟩ := h
    exact ⟨s ++ p, r, by rw [ht, String.append_assoc], hrest⟩

theorem containsInOrder_aggrBody (errs : List GraphErr) :
    ∀ i, containsInOrder (errStrings errs) (aggrBody errs i) := by
  induction errs with
  | nil => intro i; trivial
  | cons e es ih =>
    intro i
    refine ⟨"error " ++ toString i ++ ": message (",
      "), data (" ++ (e.data ++ ("). " ++ aggrBody es (i + 1))), ?_, ?_⟩
    · simp only [aggrBody, errFragment, String.append_assoc]
    · refine ⟨"), data (", "). " ++ aggrBody es (i + 1), rfl, ?_⟩
      exact containsInOrder_prepend _ "). " _ (ih (i + 1))

/-- C6 (confirmed): the response is classified eligible for an
application-level retry exactly when at least one application error carries
one of the tags capacity_exceeded, service_unavailable, service_failure or
internal_error; shouldRetry takes only the error list, so the classification
cannot depend on the HTTP status of the exchange. -/
theorem app_retry_classification_iff (errs : List GraphErr) :
    shouldRetry errs = true ↔
      ∃ e, e ∈ errs ∧ (e.name = errCapacityExceeded ∨ e.name = errServiceUnavailable ∨
        e.name = errServiceFailure ∨ e.name = errInternal) := by
  induction errs with
  | nil => simp [shouldRetry]
  | cons e rest ih =>
    by_cases h : e.name = errCapacityExceeded ∨ e.name = errServiceUnavailable ∨
        e.name = errServiceFailure ∨ e.name = errInternal
    · simp only [shouldRetry, if_pos h]
      constructor
      · intro _; exact ⟨e, List.mem_cons_self e rest, h⟩
      · intro _; trivial
    · simp only [shouldRetry, if_neg h, ih]
      constructor
      · rintro ⟨x, hx, p⟩; exact ⟨x, List.mem_cons_of_mem e hx, p⟩
      · rintro ⟨x, hx, p⟩
        rcases List.mem_cons.mp hx with rfl | hx2
        · exact absurd p h
        · exact ⟨x, hx2, p⟩

/-- C7 counterexample: status 201 is a 2xx status, yet a malformed body is
reported as a status-code failure, not as a decode failure, because the code
compares against 200 exactly. -/
theorem decode_failure_statusErr_on_201 :
    runWithJSONResolve 201 Envelope.malformed = RunOutcome.statusErr 201 ∧
    (200 ≤ 201 ∧ 201 ≤ 299) ∧
    runWithJSONResolve 201 Envelope.malformed ≠ RunOutcome.decodeErr := by decide

/-- C7 (corrected): when the body of a terminal transport response fails to
decode, a status different from exactly 200 (not: outside 2xx) is reported as
a status-code failure identifying that status, and status 200 is reported as
a decode failure. -/
theorem decode_failure_status_precedence (status : Nat) :
    (status ≠ 200 → runWithJSONResolve status Envelope.malformed = RunOutcome.statusErr status) ∧
    (status = 200 → runWithJSONResolve status Envelope.malformed = RunOutcome.decodeErr) := by
  constructor
  · intro h; simp [runWithJSONResolve, h]
  · intro h; subst h; simp [runWithJSONResolve]

/-- C7 witness: the amended statement evaluated at statuses 500 and 200. -/
theorem decode_failure_status_precedence_witness :
    runWithJSONResolve 500 Envelope.malformed = RunOutcome.statusErr 500 ∧
    runWithJSONResolve 200 Envelope.malformed = RunOutcome.decodeErr :=
  ⟨(decode_failure_status_precedence 500).1 (by decide),
   (decode_failure_status_precedence 200).2 rfl⟩

/-- C9 (code_bug): a data frame whose id is not registered makes the dispatch
loop fault (nil-interface type assertion panic) instead of being ignored, and
after a complete frame removes an id, a further data frame for that same id
faults as well. -/
theorem subWork_unknown_id_panics :
    subWorkStep [] ⟨some "x", some "7", gql_data⟩ = (FrameAction.panicNilAssertion, []) ∧
    subWorkStep ["0"] ⟨none, some "0", gql_complete⟩ = (FrameAction.closeAndRemove "0", []) ∧
    subWorkStep [] ⟨some "y", some "0", gql_data⟩ = (FrameAction.panicNilAssertion, []) := by
  decide

/-- C8 (confirmed): on the first frame of a new subscription connection, a
connection_ack frame yields a ready client; a connection_error frame carrying
a payload fails with an error whose text is the payload itself (hence
contains it); any other non-acknowledgment frame fails with the generic
server-did-not-acknowledge error; and whenever the frame is not an
acknowledgment, no ready client is returned. -/
theorem handshake_first_frame_spec (msg : SubMessage) :
    (msg.msgType = gql_connection_ack → handshake msg = HandshakeResult.ready) ∧
    (∀ p, msg.msgType = gql_connection_error → msg.payload = some p →
      handshake msg = HandshakeResult.errPayload p ∧ StrContains p p) ∧
    (msg.msgType ≠ gql_connection_ack → msg.msgType ≠ gql_connection_error →
      handshake msg = HandshakeResult.errNoAck) ∧
    (msg.msgType ≠ gql_connection_ack → handshake msg ≠ HandshakeResult.ready) := by
  refine ⟨?_, ?_, ?_, ?_⟩
  · intro h; simp [handshake, h]
  · intro p herr hp
    have hne : msg.msgType ≠ gql_connection_ack := by
      rw [herr]; decide
    refine ⟨?_, "", "", by rw [String.append_empty, String.empty_append]⟩
    simp +decide [handshake, hne, herr, hp]
  · intro h1 h2; simp [handshake, h1, h2]
  · intro h1
    by_cases h2 : msg.msgType = gql_connection_error
    · cases hp : msg.payload <;> simp +decide [handshake, h1, h2, hp]
    · simp [handshake, h1, h2]

/-- C8 witness: spec Scenario C, a connection_error frame with payload
containing "bad token" fails with that payload as the error text. -/
theorem handshake_first_frame_spec_witness :
    handshake connErrMsg = HandshakeResult.errPayload badTokenPayload ∧
    StrContains badTokenPayload "bad token" :=
  ⟨((handshake_first_frame_spec connErrMsg).2.1 badTokenPayload rfl rfl).1,
   ⟨"\x7b\"reason\":\"", "\"\x7d", by decide⟩⟩

/-- C5 (confirmed): when a decoded envelope carries one or more application
errors none of which is retry-eligible, the aggregated failure text contains
every message and every structured-data rendering in envelope order, and the
application-level loop returns that aggregate at once, performing no further
physical attempt and consuming no further server outcome. -/
theorem aggregated_error_terminal (errs : List GraphErr) (hne : errs ≠ [])
    (hnr : shouldRetry errs = false) :
    containsInOrder (errStrings errs) (getAggrErr errs) ∧
    ∀ ccfg out body idx fuel gqlCfg lastErrs tc status,
      (sendRequest ccfg body out idx).outcome = SendOutcome.success status (Envelope.ok errs) →
      execLoop ccfg out body (fuel + 1) gqlCfg idx lastErrs tc =
        ⟨ExecResult.aggr (getAggrErr errs), (sendRequest ccfg body out idx).attempts,
          (sendRequest ccfg body out idx).bodies, (sendRequest ccfg body out idx).nextIdx⟩ := by
  constructor
  · simp only [getAggrErr]
    exact containsInOrder_prepend _ "graphql: " _ (containsInOrder_aggrBody errs 0)
  · intro ccfg out body idx fuel gqlCfg lastErrs tc status hs
    have hlen : errs.length > 0 := by
      cases errs with
      | nil => exact absurd rfl hne
      | cons _ _ => simp
    rcases hrec : sendRequest ccfg body out idx with ⟨o, a, bs, ws, fi, ni⟩
    rw [hrec] at hs
    simp only at hs
    subst hs
    simp [execLoop, hrec, hlen, hnr]

/-- C5 witness: the aggregation property evaluated at two concrete terminal
errors. -/
theorem aggregated_error_terminal_witness :
    containsInOrder (errStrings errsW) (getAggrErr errsW) :=
  (aggregated_error_terminal errsW (by decide) (by decide)).1

theorem sendLoop_attempts_le (out : Nat → DoResult) (body : String) :
    ∀ fuel cfg idx lastStatus, (sendLoop out body fuel cfg idx lastStatus).attempts ≤ fuel := by
  intro fuel
  induction fuel with
  | zero => intro cfg idx ls; simp [sendLoop]
  | succ n ih =>
    intro cfg idx ls
    rcases hd : out idx with ⟨status, env⟩ | ⟨ine, tm⟩
    · by_cases h : RetryConfig.shouldRetry cfg status = true
      · simp only [sendLoop, hd, h, if_true]
        have := ih cfg.increaseInterval (idx + 1) status
        omega
      · have h1 : (1 : Nat) ≤ n + 1 := Nat.succ_le_succ (Nat.zero_le n)
        simp [sendLoop, hd, h, h1]
    · by_cases h : isErrRetryable ine tm = true
      · simp only [sendLoop, hd, h, if_true]
        have := ih cfg.increaseInterval (idx + 1) ls
        omega
      · have h1 : (1 : Nat) ≤ n + 1 := Nat.succ_le_succ (Nat.zero_le n)
        simp [sendLoop, hd, h, h1]

theorem sendLoop_bodies_replicate (out : Nat → DoResult) (body : String) :
    ∀ fuel cfg idx lastStatus,
      (sendLoop out body fuel cfg idx lastStatus).bodies =
        List.replicate (sendLoop out body fuel cfg idx lastStatus).attempts body := by
  intro fuel
  induction fuel with
  | zero => intro cfg idx ls; simp [sendLoop]
  | succ n ih =>
    intro cfg idx ls
    rcases hd : out idx with ⟨status, env⟩ | ⟨ine, tm⟩
    · by_cases h : RetryConfig.shouldRetry cfg status = true <;>
        simp [sendLoop, hd, h, List.replicate_succ, ih]
    · by_cases h : isErrRetryable ine tm = true <;>
        simp [sendLoop, hd, h, List.replicate_succ, ih]

theorem sendRequest_attempts_le (cfg : RetryConfig) (body : String)
    (out : Nat → DoResult) (idx : Nat) :
    (sendRequest cfg body out idx).attempts ≤ max 1 cfg.maxTries := by
  by_cases h : cfg.policy = ""
  · rcases hd : out idx with ⟨status, env⟩ | ⟨ine, tm⟩
    · simp only [sendRequest, if_pos h, hd]
      exact Nat.le_max_left 1 cfg.maxTries
    · simp only [sendRequest, if_pos h, hd]
      exact Nat.le_max_left 1 cfg.maxTries
  · simp only [sendRequest, if_neg h]
    exact le_trans (sendLoop_attempts_le out body cfg.maxTries cfg idx 0)
      (Nat.le_max_right 1 cfg.maxTries)

theorem sendRequest_bodies_replicate (cfg : RetryConfig) (body : String)
    (out : Nat → DoResult) (idx : Nat) :
    (sendRequest cfg body out idx).bodies =
      List.replicate (sendRequest cfg body out idx).attempts body := by
  by_cases h : cfg.policy = ""
  · rcases hd : out idx with ⟨status, env⟩ | ⟨ine, tm⟩ <;>
      simp [sendRequest, if_pos h, hd]
  · simp only [sendRequest, if_neg h]
    exact sendLoop_bodies_replicate out body cfg.maxTries cfg idx 0

theorem execLoop_attempts_le (ccfg : RetryConfig) (out : Nat → DoResult) (body : String) :
    ∀ fuel gqlCfg idx lastErrs tc,
      (execLoop ccfg out body fuel gqlCfg idx lastErrs tc).totalAttempts ≤
        fuel * max 1 ccfg.maxTries := by
  intro fuel
  induction fuel with
  | zero => intro gqlCfg idx ls tc; simp [execLoop]
  | succ n ih =>
    intro gqlCfg idx ls tc
    have hs := sendRequest_attempts_le ccfg body out idx
    have hM : max 1 ccfg.maxTries ≤ (n + 1) * max 1 ccfg.maxTries := by
      calc max 1 ccfg.maxTries = 1 * max 1 ccfg.maxTries := (one_mul _).symm
        _ ≤ (n + 1) * max 1 ccfg.maxTries := Nat.mul_le_mul_right _ (Nat.succ_pos n)
    have hmul : (n + 1) * max 1 ccfg.maxTries =
        n * max 1 ccfg.maxTries + max 1 ccfg.maxTries := Nat.succ_mul n _
    rcases ho : (sendRequest ccfg body out idx).outcome with ⟨status, env⟩ | ⟨ine, tm⟩ | st
    · cases env with
      | malformed =>
        simp only [execLoop, ho]
        omega
      | ok errs =>
        by_cases hl : errs.length > 0
        · by_cases hg : (sendRequest ccfg body out idx).finalInterval ≤ ccfg.interval ∧
              shouldRetry errs = true
          · simp only [execLoop, ho, if_pos hl, if_pos hg]
            have hr := ih gqlCfg.increaseInterval (sendRequest ccfg body out idx).nextIdx
              errs (tc + 1)
            omega
          · simp only [execLoop, ho, if_pos hl, if_neg hg]
            omega
        · simp only [execLoop, ho, if_neg hl]
          omega
    · simp only [execLoop, ho]
      omega
    · simp only [execLoop, ho]
      omega

theorem execLoop_bodies_replicate (ccfg : RetryConfig) (out : Nat → DoResult) (body : String) :
    ∀ fuel gqlCfg idx lastErrs tc,
      (execLoop ccfg out body fuel gqlCfg idx lastErrs tc).bodies =
        List.replicate (execLoop ccfg out body fuel gqlCfg idx lastErrs tc).totalAttempts body := by
  intro fuel
  induction fuel with
  | zero => intro gqlCfg idx ls tc; simp [execLoop]
  | succ n ih =>
    intro gqlCfg idx ls tc
    have hb := sendRequest_bodies_replicate ccfg body out idx
    rcases ho : (sendRequest ccfg body out idx).outcome with ⟨status, env⟩ | ⟨ine, tm⟩ | st
    · cases env with
      | malformed => simp only [execLoop, ho]; exact hb
      | ok errs =>
        by_cases hl : errs.length > 0
        · by_cases hg : (sendRequest ccfg body out idx).finalInterval ≤ ccfg.interval ∧
              shouldRetry errs = true
          · simp only [execLoop, ho, if_pos hl, if_pos hg]
            rw [hb, ih gqlCfg.increaseInterval (sendRequest ccfg body out idx).nextIdx
              errs (tc + 1), List.replicate_add]
          · simp only [execLoop, ho, if_pos hl, if_neg hg]
            exact hb
        · simp only [execLoop, ho, if_neg hl]
          exact hb
    · simp only [execLoop, ho]
      exact hb
    · simp only [execLoop, ho]
      exact hb

/-- C4 (confirmed): every physical attempt of the transport retry loop and
of the application-level retry loop sends exactly the original body bytes:
the list of bodies sent is a constant replication of the captured body, so
the bytes of attempt k equal the bytes of attempt 1 for every k. -/
theorem request_body_replay_identical (cfg : RetryConfig) (body : String)
    (out : Nat → DoResult) (idx : Nat) :
    (sendRequest cfg body out idx).bodies =
      List.replicate (sendRequest cfg body out idx).attempts body ∧
    (executeRequest cfg body out idx).bodies =
      List.replicate (executeRequest cfg body out idx).totalAttempts body :=
  ⟨sendRequest_bodies_replicate cfg body out idx,
   execLoop_bodies_replicate cfg out body cfg.maxTries cfg idx [] 0⟩

/-- C1 counterexample: with the linear policy, MaxTries 2, and a server that
alternates a retryable 503 with a 200 carrying a retry-eligible application
error, one logical operation performs 4 physical attempts, exceeding
MaxTries: each of the two application-level iterations re-runs the whole
transport loop, which itself uses two attempts. -/
theorem executeRequest_total_can_exceed_maxTries :
    cfgLin.maxTries = 2 ∧ (executeRequest cfgLin "B" outAlt 0).totalAttempts = 4 := by
  decide

/-- C1 (corrected): each invocation of the transport retry loop performs at
most max(1, MaxTries) physical attempts, and the application-level loop
re-invokes it at most MaxTries times, so one logical operation performs at
most MaxTries * max(1, MaxTries) physical attempts in total; the total is
not bounded by MaxTries itself. -/
theorem attempts_bounded_per_level (cfg : RetryConfig) (body : String)
    (out : Nat → DoResult) (idx : Nat) :
    (sendRequest cfg body out idx).attempts ≤ max 1 cfg.maxTries ∧
    (executeRequest cfg body out idx).totalAttempts ≤ cfg.maxTries * max 1 cfg.maxTries :=
  ⟨sendRequest_attempts_le cfg body out idx,
   execLoop_attempts_le cfg out body cfg.maxTries cfg idx [] 0⟩

/-- C2 (confirmed): inside the retry loop, an attempt is followed by a retry
exactly when the spec-side classifier marks its outcome retryable (a network
timeout, or a response status in the explicit RetryStatus set when one is
configured, otherwise in 500-599 or equal to 429): a non-retryable error is
returned as a terminal failure after one attempt, a response with a
non-retryable status is returned to the caller as a terminal success after
one attempt, and a retryable outcome leads to exactly one wait and the next
attempt. -/
theorem sendLoop_classifies_attempts (cfg : RetryConfig) (out : Nat → DoResult)
    (body : String) (fuel idx lastStatus : Nat) :
    (specRetryable cfg (out idx) = false →
      sendLoop out body (fuel + 1) cfg idx lastStatus =
        terminalResult cfg body idx (out idx)) ∧
    (specRetryable cfg (out idx) = true →
      sendLoop out body (fuel + 1) cfg idx lastStatus =
        retryStep (sendLoop out body fuel cfg.increaseInterval (idx + 1)
          (nextLastStatus lastStatus (out idx))) body cfg.interval) := by
  rcases hd : out idx with ⟨status, env⟩ | ⟨ine, tm⟩
  · have heq : specRetryable cfg (DoResult.resp status env) =
        RetryConfig.shouldRetry cfg status := rfl
    constructor
    · intro h
      rw [heq] at h
      simp [sendLoop, hd, h, terminalResult]
    · intro h
      rw [heq] at h
      simp [sendLoop, hd, h, retryStep, nextLastStatus]
  · have heq : specRetryable cfg (DoResult.fail ine tm) = isErrRetryable ine tm := rfl
    constructor
    · intro h
      rw [heq] at h
      simp [sendLoop, hd, h, terminalResult]
    · intro h
      rw [heq] at h
      simp [sendLoop, hd, h, retryStep, nextLastStatus]

/-- C2 witness: a 200 response under the linear configuration is terminal
success after exactly one attempt. -/
theorem sendLoop_classifies_attempts_witness :
    sendLoop (fun _ => DoResult.resp 200 (Envelope.ok [])) "B" 3 cfgW 0 0 =
      ⟨SendOutcome.success 200 (Envelope.ok []), 1, ["B"], [], 1, 1⟩ := by
  have h := (sendLoop_classifies_attempts cfgW (fun _ => DoResult.resp 200 (Envelope.ok []))
    "B" 2 0 0).1 (by decide)
  exact h.trans (by decide)

theorem increaseInterval_policy (cfg : RetryConfig) :
    cfg.increaseInterval.policy = cfg.policy := by
  rw [RetryConfig.increaseInterval]; split <;> rfl

theorem increaseInterval_maxInterval (cfg : RetryConfig) :
    cfg.increaseInterval.maxInterval = cfg.maxInterval := by
  rw [RetryConfig.increaseInterval]; split <;> rfl

theorem increaseInterval_interval_le (cfg : RetryConfig)
    (h : cfg.interval ≤ cfg.maxInterval) :
    cfg.increaseInterval.interval ≤ cfg.increaseInterval.maxInterval := by
  rw [RetryConfig.increaseInterval]; split
  · exact min_le_right _ _
  · exact h

theorem increaseInterval_interval_formula (cfg : RetryConfig) :
    cfg.increaseInterval.interval =
      if cfg.policy = ExponentialBackoff ∧ cfg.interval < cfg.maxInterval
      then min (cfg.interval * 2) cfg.maxInterval else cfg.interval := by
  rw [RetryConfig.increaseInterval]; split <;> rfl

theorem iterCfg_policy (cfg : RetryConfig) : ∀ n, (iterCfg cfg n).policy = cfg.policy := by
  intro n
  induction n with
  | zero => rfl
  | succ k ih => rw [iterCfg, increaseInterval_policy, ih]

theorem iterCfg_maxInterval (cfg : RetryConfig) :
    ∀ n, (iterCfg cfg n).maxInterval = cfg.maxInterval := by
  intro n
  induction n with
  | zero => rfl
  | succ k ih => rw [iterCfg, increaseInterval_maxInterval, ih]

theorem intervalAfter_exp (cfg : RetryConfig) (hp : cfg.policy = ExponentialBackoff)
    (h0 : 0 ≤ cfg.interval) (hm : cfg.interval ≤ cfg.maxInterval) :
    ∀ n, intervalAfter cfg n = min (cfg.interval * 2 ^ n) cfg.maxInterval := by
  intro n
  induction n with
  | zero =>
    simp [intervalAfter, iterCfg, pow_zero, mul_one, min_eq_left hm]
  | succ k ih =>
    have hpol : (iterCfg cfg k).policy = cfg.policy := iterCfg_policy cfg k
    have hmax : (iterCfg cfg k).maxInterval = cfg.maxInterval := iterCfg_maxInterval cfg k
    have hik : (iterCfg cfg k).interval = min (cfg.interval * 2 ^ k) cfg.maxInterval := ih
    rw [intervalAfter, iterCfg, increaseInterval_interval_formula, hpol, hmax, hik, hp]
    by_cases hc : min (cfg.interval * 2 ^ k) cfg.maxInterval < cfg.maxInterval
    · rw [if_pos ⟨rfl, hc⟩]
      have hlt : cfg.interval * 2 ^ k < cfg.maxInterval := by
        by_contra hge
        push_neg at hge
        rw [min_eq_right hge] at hc
        exact lt_irrefl _ hc
      rw [min_eq_left (le_of_lt hlt), pow_succ, ← mul_assoc]
    · rw [if_neg (fun hcc => hc hcc.2)]
      push_neg at hc
      have hmm : min (cfg.interval * 2 ^ k) cfg.maxInterval = cfg.maxInterval :=
        le_antisymm (min_le_right _ _) hc
      have hMle : cfg.maxInterval ≤ cfg.interval * 2 ^ k := min_eq_right_iff.mp hmm
      have hpow : (2 : ℚ) ^ k ≤ 2 ^ (k + 1) := by
        rw [pow_succ]
        have h2 := pow_nonneg (by norm_num : (0 : ℚ) ≤ 2) k
        linarith
      have h2 : cfg.interval * 2 ^ k ≤ cfg.interval * 2 ^ (k + 1) :=
        mul_le_mul_of_nonneg_left hpow h0
      rw [hmm, min_eq_right (le_trans hMle h2)]

theorem intervalAfter_linear (cfg : RetryConfig) (hp : cfg.policy = Linear) :
    ∀ n, intervalAfter cfg n = cfg.interval := by
  intro n
  induction n with
  | zero => rfl
  | succ k ih =>
    have hpol := iterCfg_policy cfg k
    rw [intervalAfter, iterCfg, increaseInterval_interval_formula, hpol, hp, if_neg]
    · exact ih
    · rintro ⟨h1, _⟩
      exact absurd h1 (by decide)

theorem sendLoop_waits_le (out : Nat → DoResult) (body : String) :
    ∀ fuel cfg idx lastStatus, cfg.interval ≤ cfg.maxInterval →
      ∀ w ∈ (sendLoop out body fuel cfg idx lastStatus).waits, w ≤ cfg.maxInterval := by
  intro fuel
  induction fuel with
  | zero => intro cfg idx ls h w hw; simp [sendLoop] at hw
  | succ n ih =>
    intro cfg idx ls h w hw
    have hib : cfg.increaseInterval.interval ≤ cfg.increaseInterval.maxInterval :=
      increaseInterval_interval_le cfg h
    have hmx : cfg.increaseInterval.maxInterval = cfg.maxInterval :=
      increaseInterval_maxInterval cfg
    rcases hd : out idx with ⟨status, env⟩ | ⟨ine, tm⟩
    · by_cases hb : RetryConfig.shouldRetry cfg status = true
      · simp [sendLoop, hd, hb] at hw
        rcases hw with rfl | hw2
        · exact h
        · have := ih cfg.increaseInterval (idx + 1) status hib w hw2
          rwa [hmx] at this
      · simp [sendLoop, hd, hb] at hw
    · by_cases hb : isErrRetryable ine tm = true
      · simp [sendLoop, hd, hb] at hw
        rcases hw with rfl | hw2
        · exact h
        · have := ih cfg.increaseInterval (idx + 1) ls hib w hw2
          rwa [hmx] at this
      · simp [sendLoop, hd, hb] at hw

/-- C3 counterexample: an exponential configuration with initial interval 5
above MaxInterval 2 (rejected by isValid, but validation is never invoked)
never changes its interval, so the interval after attempt 1 is 5, not
min(5 * 2, 2) = 2, and both waits of a two-try run equal 5, exceeding the
configured max interval. -/
theorem interval_not_capped_when_initial_exceeds_max :
    cfgBad.policy = ExponentialBackoff ∧
    cfgBad.interval = 5 ∧ cfgBad.maxInterval = 2 ∧
    intervalAfter cfgBad 1 = 5 ∧
    min (cfgBad.interval * 2 ^ 1) cfgBad.maxInterval = 2 ∧
    (sendRequest cfgBad "B" out503 0).waits = [5, 5] ∧
    ¬ ((5 : ℚ) ≤ (2 : ℚ)) := by
  refine ⟨rfl, rfl, rfl, by decide, ?_, by decide, by norm_num⟩
  norm_num [cfgBad, min_def]

/-- C3 (corrected): for exponential configurations with 0 ≤ interval and
interval ≤ maxInterval (the shape isValid demands), the interval after n
increases equals min(interval * 2 ^ n, maxInterval), the sequence is
non-decreasing, and it never exceeds maxInterval; for any configuration with
interval ≤ maxInterval, every interval the transport retry loop actually
waits is at most maxInterval; under the linear policy the interval is the
same constant on every attempt.  Without the interval ≤ maxInterval guard
the formula and the cap fail. -/
theorem interval_policy_spec (cfg : RetryConfig) :
    (cfg.policy = ExponentialBackoff → 0 ≤ cfg.interval → cfg.interval ≤ cfg.maxInterval →
      (∀ n, intervalAfter cfg n = min (cfg.interval * 2 ^ n) cfg.maxInterval) ∧
      (∀ n, intervalAfter cfg n ≤ intervalAfter cfg (n + 1)) ∧
      (∀ n, intervalAfter cfg n ≤ cfg.maxInterval)) ∧
    (cfg.interval ≤ cfg.maxInterval → ∀ out body fuel idx lastStatus w,
      w ∈ (sendLoop out body fuel cfg idx lastStatus).waits → w ≤ cfg.maxInterval) ∧
    (cfg.policy = Linear → ∀ n, intervalAfter cfg n = cfg.interval) := by
  refine ⟨?_, ?_, ?_⟩
  · intro hp h0 hm
    have hf := intervalAfter_exp cfg hp h0 hm
    refine ⟨hf, ?_, ?_⟩
    · intro n
      rw [hf n, hf (n + 1)]
      refine min_le_min ?_ le_rfl
      have hpow : (2 : ℚ) ^ n ≤ 2 ^ (n + 1) := by
        rw [pow_succ]
        have h2 := pow_nonneg (by norm_num : (0 : ℚ) ≤ 2) n
        linarith
      exact mul_le_mul_of_nonneg_left hpow h0
    · intro n
      rw [hf n]
      exact min_le_right _ _
  · intro hm out body fuel idx ls w hw
    exact sendLoop_waits_le out body fuel cfg idx ls hm w hw
  · exact intervalAfter_linear cfg

/-- C3 witness: the amended formula evaluated on the default exponential
configuration, interval 1 and MaxInterval 16: after two increases the
interval is min(1 * 4, 16) = 4. -/
theorem interval_policy_spec_witness :
    intervalAfter defaultExponentialRetryConfig 2 = 4 :=
  (((interval_policy_spec defaultExponentialRetryConfig).1 rfl (by decide)
    (by decide)).1 2).trans (by norm_num [defaultExponentialRetryConfig, min_def])

theorem stripPrefixStr_sound : ∀ p cs rest, stripPrefixStr p cs = some rest → cs = p ++ rest := by
  intro p
  induction p with
  | nil =>
    intro cs rest h
    simp only [stripPrefixStr, Option.some.injEq] at h
    simp [h]
  | cons a ps ih =>
    intro cs rest h
    cases cs with
    | nil => simp [stripPrefixStr] at h
    | cons c cs2 =>
      simp only [stripPrefixStr] at h
      split at h
      · rename_i hc
        have h2 := ih cs2 rest h
        subst hc
        simp [List.cons_append, h2]
      · simp at h

theorem stripPrefixStr_complete : ∀ p rest, stripPrefixStr p (p ++ rest) = some rest := by
  intro p rest
  induction p with
  | nil => rfl
  | cons a ps ih => simp [stripPrefixStr, ih]

theorem lazyFindParen_sound : ∀ cs g, lazyFindParen cs = some g →
    (∀ c ∈ g, c ≠ '\n') ∧ ∃ rest, cs = g ++ '(' :: rest := by
  intro cs
  induction cs with
  | nil => intro g h; simp [lazyFindParen] at h
  | cons c cs2 ih =>
    intro g h
    simp only [lazyFindParen] at h
    by_cases h1 : c = '('
    · rw [if_pos h1] at h
      injection h with h2
      subst h2
      exact ⟨by simp, cs2, by simp [h1]⟩
    · rw [if_neg h1] at h
      by_cases h2 : c = '\n'
      · rw [if_pos h2] at h; simp at h
      · rw [if_neg h2] at h
        rcases hm : lazyFindParen cs2 with _ | g2
        · rw [hm] at h; simp at h
        · rw [hm] at h
          simp only [Option.map_some', Option.some.injEq] at h
          subst h
          obtain ⟨hnl, rest, hre⟩ := ih g2 hm
          refine ⟨?_, rest, ?_⟩
          · intro x hx
            rcases List.mem_cons.mp hx with rfl | hx2
            · exact h2
            · exact hnl x hx2
          · simp [hre]

theorem lazyFindParen_complete : ∀ mid rest, (∀ c ∈ mid, c ≠ '\n') →
    (lazyFindParen (mid ++ '(' :: rest)).isSome = true := by
  intro mid
  induction mid with
  | nil => intro rest h; simp [lazyFindParen]
  | cons c mid2 ih =>
    intro rest h
    by_cases hp : c = '('
    · simp [lazyFindParen, hp]
    · have hnl : c ≠ '\n' := h c (List.mem_cons_self c mid2)
      have htl := ih rest (fun x hx => h x (List.mem_cons_of_mem c hx))
      simp only [List.cons_append, lazyFindParen, if_neg hp, if_neg hnl]
      rcases ho : lazyFindParen (mid2 ++ '(' :: rest) with _ | g
      · rw [ho] at htl; simp at htl
      · simp

theorem wsRun_take_white : ∀ cs w, w ≤ wsRun cs →
    ∀ c ∈ cs.take w, goWhitespace c = true := by
  intro cs
  induction cs with
  | nil => intro w hw c hc; simp at hc
  | cons a cs2 ih =>
    intro w hw c hc
    cases w with
    | zero => simp at hc
    | succ w2 =>
      simp only [wsRun] at hw
      by_cases hws : goWhitespace a = true
      · rw [if_pos hws] at hw
        rw [List.take_succ_cons] at hc
        rcases List.mem_cons.mp hc with rfl | hc2
        · exact hws
        · exact ih w2 (Nat.le_of_succ_le_succ hw) c hc2
      · rw [if_neg hws] at hw
        omega

theorem wsRun_ge : ∀ ws cs, (∀ c ∈ ws, goWhitespace c = true) →
    ws.length ≤ wsRun (ws ++ cs) := by
  intro ws
  induction ws with
  | nil => intro cs h; simp
  | cons a ws2 ih =>
    intro cs h
    have ha : goWhitespace a = true := h a (List.mem_cons_self a ws2)
    simp only [List.cons_append, wsRun, if_pos ha, List.length_cons]
    exact Nat.succ_le_succ (ih cs (fun x hx => h x (List.mem_cons_of_mem a hx)))

theorem tryWs_sound : ∀ w cs g, w ≤ wsRun cs → tryWs w cs = some g →
    ∃ ws mid rest, cs = ws ++ (mid ++ ('(' :: rest)) ∧
      (∀ c ∈ ws, goWhitespace c = true) ∧ (∀ c ∈ mid, c ≠ '\n') ∧ mid = g := by
  intro w
  induction w with
  | zero =>
    intro cs g hw h
    simp only [tryWs] at h
    obtain ⟨hnl, rest, hre⟩ := lazyFindParen_sound cs g h
    exact ⟨[], g, rest, by simpa using hre, by simp, hnl, rfl⟩
  | succ w2 ih =>
    intro cs g hw h
    simp only [tryWs] at h
    rcases hm : lazyFindParen (cs.drop (w2 + 1)) with _ | g2
    · rw [hm] at h
      exact ih cs g (Nat.le_of_succ_le hw) h
    · rw [hm] at h
      simp only [Option.some.injEq] at h
      subst h
      obtain ⟨hnl, rest, hre⟩ := lazyFindParen_sound _ _ hm
      refine ⟨cs.take (w2 + 1), g2, rest, ?_, wsRun_take_white cs (w2 + 1) hw, hnl, rfl⟩
      conv_lhs => rw [← List.take_append_drop (w2 + 1) cs]
      rw [hre]

theorem tryWs_complete : ∀ w cs,
    (∃ w2, w2 ≤ w ∧ (lazyFindParen (cs.drop w2)).isSome = true) →
    (tryWs w cs).isSome = true := by
  intro w
  induction w with
  | zero =>
    intro cs h
    obtain ⟨w2, hle, hs⟩ := h
    have hz : w2 = 0 := Nat.le_zero.mp hle
    subst hz
    simpa [tryWs] using hs
  | succ wk ih =>
    intro cs h
    obtain ⟨w2, hle, hs⟩ := h
    rcases ho : lazyFindParen (cs.drop (wk + 1)) with _ | g
    · have hne : w2 ≠ wk + 1 := by
        intro heq; subst heq; rw [ho] at hs; simp at hs
      simp only [tryWs, ho]
      exact ih cs ⟨w2, by omega, hs⟩
    · simp [tryWs, ho]

theorem matchTail_sound (cs g : List Char) (h : matchTail cs = some g) :
    ∃ ws mid rest, cs = ws ++ (mid ++ ('(' :: rest)) ∧
      (∀ c ∈ ws, goWhitespace c = true) ∧ (∀ c ∈ mid, c ≠ '\n') ∧ mid = g :=
  tryWs_sound (wsRun cs) cs g le_rfl h

theorem matchTail_complete (ws mid rest1 : List Char)
    (hws : ∀ c ∈ ws, goWhitespace c = true) (hmid : ∀ c ∈ mid, c ≠ '\n') :
    (matchTail (ws ++ (mid ++ '(' :: rest1))).isSome = true := by
  apply tryWs_complete
  refine ⟨ws.length, wsRun_ge ws (mid ++ '(' :: rest1) hws, ?_⟩
  rw [List.drop_left]
  exact lazyFindParen_complete mid rest1 hmid

theorem matchAt_sound (cs : List Char) (r : List Char × List Char)
    (h : matchAt cs = some r) :
    ∃ kw ws mid rest, cs = kw ++ (ws ++ (mid ++ ('(' :: rest))) ∧
      (kw = "mutation".data ∨ kw = "query".data) ∧
      (∀ c ∈ ws, goWhitespace c = true) ∧ (∀ c ∈ mid, c ≠ '\n') := by
  rcases hm : stripPrefixStr "mutation".data cs with _ | rest1
  · simp only [matchAt, hm] at h
    rcases hq : stripPrefixStr "query".data cs with _ | rest2
    · simp [hq] at h
    · simp only [hq] at h
      rcases ht : matchTail rest2 with _ | g2
      · simp [ht] at h
      · obtain ⟨ws, mid, rest, hre, hwhite, hnl, _⟩ := matchTail_sound rest2 g2 ht
        have hcs := stripPrefixStr_sound _ _ _ hq
        exact ⟨"query".data, ws, mid, rest, by rw [hcs, hre], Or.inr rfl, hwhite, hnl⟩
  · simp only [matchAt, hm] at h
    rcases ht : matchTail rest1 with _ | g1
    · simp only [ht] at h
      rcases hq : stripPrefixStr "query".data cs with _ | rest2
      · simp [hq] at h
      · simp only [hq] at h
        rcases ht2 : matchTail rest2 with _ | g2
        · simp [ht2] at h
        · obtain ⟨ws, mid, rest, hre, hwhite, hnl, _⟩ := matchTail_sound rest2 g2 ht2
          have hcs := stripPrefixStr_sound _ _ _ hq
          exact ⟨"query".data, ws, mid, rest, by rw [hcs, hre], Or.inr rfl, hwhite, hnl⟩
    · obtain ⟨ws, mid, rest, hre, hwhite, hnl, _⟩ := matchTail_sound rest1 g1 ht
      have hcs := stripPrefixStr_sound _ _ _ hm
      exact ⟨"mutation".data, ws, mid, rest, by rw [hcs, hre], Or.inl rfl, hwhite, hnl⟩

theorem matchAt_complete (kw ws mid rest : List Char)
    (hkw : kw = "mutation".data ∨ kw = "query".data)
    (hws : ∀ c ∈ ws, goWhitespace c = true) (hmid : ∀ c ∈ mid, c ≠ '\n') :
    (matchAt (kw ++ (ws ++ (mid ++ '(' :: rest)))).isSome = true := by
  have htail := matchTail_complete ws mid rest hws hmid
  rcases hkw with rfl | rfl
  · simp only [matchAt, stripPrefixStr_complete]
    rcases ht : matchTail (ws ++ (mid ++ '(' :: rest)) with _ | g
    · rw [ht] at htail; simp at htail
    · simp [ht]
  · have hmq : stripPrefixStr "mutation".data
        ("query".data ++ (ws ++ (mid ++ '(' :: rest))) = none := rfl
    simp only [matchAt, hmq, stripPrefixStr_complete]
    rcases ht : matchTail (ws ++ (mid ++ '(' :: rest)) with _ | g
    · rw [ht] at htail; simp at htail
    · simp [ht]

theorem findFrom_cons_isSome (cs : List Char) (hne : cs ≠ [])
    (hA : (matchAt cs).isSome = true) : (findFrom cs).isSome = true := by
  cases cs with
  | nil => exact absurd rfl hne
  | cons c cs2 =>
    simp only [findFrom]
    rcases ho : matchAt (c :: cs2) with _ | r
    · rw [ho] at hA; simp at hA
    · simp [ho]

theorem findFrom_sound : ∀ cs r, findFrom cs = some r → MatchesPattern cs := by
  intro cs
  induction cs with
  | nil => intro r h; simp [findFrom] at h
  | cons c cs2 ih =>
    intro r h
    simp only [findFrom] at h
    rcases hA : matchAt (c :: cs2) with _ | r2
    · simp only [hA] at h
      obtain ⟨pre, kw, ws, mid, rest, hcs, hkw, hws, hmid⟩ := ih r h
      exact ⟨c :: pre, kw, ws, mid, rest, by rw [List.cons_append, hcs], hkw, hws, hmid⟩
    · obtain ⟨kw, ws, mid, rest, hcs, hkw, hws, hmid⟩ := matchAt_sound (c :: cs2) r2 hA
      exact ⟨[], kw, ws, mid, rest, by simpa using hcs, hkw, hws, hmid⟩

theorem findFrom_complete (cs : List Char) (h : MatchesPattern cs) :
    (findFrom cs).isSome = true := by
  obtain ⟨pre, kw, ws, mid, rest, hcs, hkw, hws, hmid⟩ := h
  subst hcs
  induction pre with
  | nil =>
    simp only [List.nil_append]
    apply findFrom_cons_isSome
    · rcases hkw with rfl | rfl <;>
        exact fun hnil => absurd (List.append_eq_nil.mp hnil).1 (by decide)
    · exact matchAt_complete kw ws mid rest hkw hws hmid
  | cons c pre2 ihp =>
    rw [List.cons_append]
    simp only [findFrom]
    rcases ho : matchAt (c :: (pre2 ++ (kw ++ (ws ++ (mid ++ '(' :: rest))))) with _ | r
    · simp only [ho]
      exact ihp
    · simp [ho]

theorem findFrom_isSome_iff (cs : List Char) :
    (findFrom cs).isSome = true ↔ MatchesPattern cs := by
  constructor
  · intro h
    rcases ho : findFrom cs with _ | r
    · rw [ho] at h; simp at h
    · exact findFrom_sound cs r ho
  · exact findFrom_complete cs

/-- C10 (confirmed): OperationName produces a value exactly when the query
string matches the pattern (mutation|query)\s*(.*?)\( somewhere — a keyword,
then whitespace, then a newline-free run, then an opening parenthesis; on
every other query the submatch lookup faults (the model returns none), and
OperationsJSON, which calls OperationName, faults on exactly the same
queries. -/
theorem operationName_total_iff_matches (req : Request) :
    ((req.OperationName).isSome = true ↔ MatchesPattern req.q.data) ∧
    ((req.OperationsJSON).isSome = true ↔ MatchesPattern req.q.data) := by
  have h1 : (req.OperationName).isSome = true ↔ (findFrom req.q.data).isSome = true := by
    rcases ho : findFrom req.q.data with _ | ⟨g1, g2⟩ <;>
      simp [Request.OperationName, FindStringSubmatch, Request.Query, ho]
  have h2 : (req.OperationsJSON).isSome = true ↔ (req.OperationName).isSome = true := by
    rcases ho : req.OperationName with _ | v <;>
      simp [Request.OperationsJSON, ho]
  constructor
  · rw [h1]; exact findFrom_isSome_iff req.q.data
  · rw [h2, h1]; exact findFrom_isSome_iff req.q.data
